import Mathlib

/-!
Verification of the PlantUML URL payload encoder of Image2Salt (src/App.tsx).

Strings are modelled as their lists of characters (`List Char`, bridged to
`String` via `String.data`/`String.mk`), byte arrays (`Uint8Array`) as
`List Nat` with every element below 256 where that matters.
-/

set_option maxRecDepth 8192

namespace Image2Salt

/-- The 6-bit-to-ASCII alphabet map of `encode6bit` in src/App.tsx:
0–9 to digits, 10–35 to uppercase, 36–61 to lowercase, 62 to dash,
63 to underscore, with a defensive fallback character otherwise. -/
def encode6bit (b : Nat) : Char :=
  if b < 10 then Char.ofNat (48 + b)
  else if b < 36 then Char.ofNat (65 + b - 10)
  else if b < 62 then Char.ofNat (97 + b - 36)
  else if b = 62 then '-'
  else if b = 63 then '_'
  else '?'

/-- Function `encode3bytes` of src/App.tsx: packs one 3-byte group into four 6-bit
values and maps each through the alphabet, masking each with `&&& 0x3f`
before lookup exactly as the source does. -/
def encode3bytes (b1 b2 b3 : Nat) : List Char :=
  let c1 := b1 >>> 2
  let c2 := ((b1 &&& 0x3) <<< 4) ||| (b2 >>> 4)
  let c3 := ((b2 &&& 0xf) <<< 2) ||| (b3 >>> 6)
  let c4 := b3 &&& 0x3f
  [encode6bit (c1 &&& 0x3f), encode6bit (c2 &&& 0x3f),
   encode6bit (c3 &&& 0x3f), encode6bit (c4 &&& 0x3f)]

/-- Function `encode64` of src/App.tsx: the loop walks the input three bytes at a
time (`i + 2 < length` is the full-group case, `i + 1 < length` the 2-byte
tail, otherwise the 1-byte tail), which is this structural recursion. -/
def encode64 : List Nat → List Char
  | b1 :: b2 :: b3 :: rest => encode3bytes b1 b2 b3 ++ encode64 rest
  | [b1, b2] =>
      let c1 := b1 >>> 2
      let c2 := ((b1 &&& 0x3) <<< 4) ||| (b2 >>> 4)
      let c3 := (b2 &&& 0xf) <<< 2
      [encode6bit (c1 &&& 0x3f), encode6bit (c2 &&& 0x3f), encode6bit (c3 &&& 0x3f)]
  | [b1] =>
      let c1 := b1 >>> 2
      let c2 := (b1 &&& 0x3) <<< 4
      [encode6bit (c1 &&& 0x3f), encode6bit (c2 &&& 0x3f)]
  | [] => []

/-- Modelled from the spec: the inverse 6-bit decoding of the alphabet
(the server-side counterpart; not part of this repository). -/
def decode6bit (c : Char) : Nat :=
  let n := c.toNat
  if 48 ≤ n ∧ n ≤ 57 then n - 48
  else if 65 ≤ n ∧ n ≤ 90 then n - 65 + 10
  else if 97 ≤ n ∧ n ≤ 122 then n - 97 + 36
  else if n = 45 then 62
  else 63

/-- Modelled from the spec: the inverse of the 6-bit encoder — four
characters give back three bytes, a 3-character tail two bytes, a
2-character tail one byte (the tails' zero-padded low bits are dropped). -/
def decode64 : List Char → List Nat
  | c1 :: c2 :: c3 :: c4 :: rest =>
      (decode6bit c1 * 4 + decode6bit c2 / 16) ::
      ((decode6bit c2 % 16) * 16 + decode6bit c3 / 4) ::
      ((decode6bit c3 % 4) * 64 + decode6bit c4) :: decode64 rest
  | [c1, c2, c3] =>
      [decode6bit c1 * 4 + decode6bit c2 / 16,
       (decode6bit c2 % 16) * 16 + decode6bit c3 / 4]
  | [c1, c2] =>
      [decode6bit c1 * 4 + decode6bit c2 / 16]
  | _ => []

/-! ### Small bit-arithmetic facts about bytes, each settled by evaluation. -/

theorem and3_eq_mod (x : Nat) (h : x < 256) : x &&& 0x3 = x % 4 := by
  revert h; revert x; decide

theorem and15_eq_mod (x : Nat) (h : x < 256) : x &&& 0xf = x % 16 := by
  revert h; revert x; decide

theorem and63_eq_mod (x : Nat) (h : x < 256) : x &&& 0x3f = x % 64 := by
  revert h; revert x; decide

theorem shr2_eq_div (x : Nat) (h : x < 256) : x >>> 2 = x / 4 := by
  revert h; revert x; decide

theorem shr4_eq_div (x : Nat) (h : x < 256) : x >>> 4 = x / 16 := by
  revert h; revert x; decide

theorem shr6_eq_div (x : Nat) (h : x < 256) : x >>> 6 = x / 64 := by
  revert h; revert x; decide

theorem shl4_or_eq (x y : Nat) (hx : x < 4) (hy : y < 16) :
    (x <<< 4) ||| y = 16 * x + y := by
  revert hy; revert y; revert hx; revert x; decide

theorem shl2_or_eq (x y : Nat) (hx : x < 16) (hy : y < 4) :
    (x <<< 2) ||| y = 4 * x + y := by
  revert hy; revert y; revert hx; revert x; decide

theorem shl4_small (x : Nat) (hx : x < 4) : x <<< 4 = 16 * x := by
  revert hx; revert x; decide

theorem shl2_small (x : Nat) (hx : x < 16) : x <<< 2 = 4 * x := by
  revert hx; revert x; decide

theorem and63_small (x : Nat) (h : x < 64) : x &&& 0x3f = x := by
  revert h; revert x; decide

theorem decode6bit_encode6bit (v : Nat) (h : v < 64) :
    decode6bit (encode6bit v) = v := by
  revert h; revert v; decide

/-! ### Round-trip of the 6-bit encoder (claim C1) -/

theorem decode64_group (b1 b2 b3 : Nat) (h1 : b1 < 256) (h2 : b2 < 256)
    (h3 : b3 < 256) (tl : List Char) :
    decode64 (encode3bytes b1 b2 b3 ++ tl) = b1 :: b2 :: b3 :: decode64 tl := by
  have e1 : (b1 >>> 2) &&& 0x3f = b1 / 4 := by
    rw [shr2_eq_div b1 h1, and63_small _ (by omega)]
  have e2 : (((b1 &&& 0x3) <<< 4) ||| (b2 >>> 4)) &&& 0x3f = 16 * (b1 % 4) + b2 / 16 := by
    rw [and3_eq_mod b1 h1, shr4_eq_div b2 h2,
        shl4_or_eq _ _ (by omega) (by omega), and63_small _ (by omega)]
  have e3 : (((b2 &&& 0xf) <<< 2) ||| (b3 >>> 6)) &&& 0x3f = 4 * (b2 % 16) + b3 / 64 := by
    rw [and15_eq_mod b2 h2, shr6_eq_div b3 h3,
        shl2_or_eq _ _ (by omega) (by omega), and63_small _ (by omega)]
  have e4 : (b3 &&& 0x3f) &&& 0x3f = b3 % 64 := by
    rw [and63_eq_mod b3 h3, and63_small _ (by omega)]
  show decode64 (encode6bit ((b1 >>> 2) &&& 0x3f) ::
        encode6bit ((((b1 &&& 0x3) <<< 4) ||| (b2 >>> 4)) &&& 0x3f) ::
        encode6bit ((((b2 &&& 0xf) <<< 2) ||| (b3 >>> 6)) &&& 0x3f) ::
        encode6bit ((b3 &&& 0x3f) &&& 0x3f) :: tl) = _
  rw [e1, e2, e3, e4, decode64,
      decode6bit_encode6bit _ (by omega), decode6bit_encode6bit _ (by omega),
      decode6bit_encode6bit _ (by omega), decode6bit_encode6bit _ (by omega)]
  simp only [List.cons.injEq]
  exact ⟨by omega, by omega, by omega, trivial⟩

theorem decode64_tail2 (b1 b2 : Nat) (h1 : b1 < 256) (h2 : b2 < 256) :
    decode64 (encode64 [b1, b2]) = [b1, b2] := by
  have e1 : (b1 >>> 2) &&& 0x3f = b1 / 4 := by
    rw [shr2_eq_div b1 h1, and63_small _ (by omega)]
  have e2 : (((b1 &&& 0x3) <<< 4) ||| (b2 >>> 4)) &&& 0x3f = 16 * (b1 % 4) + b2 / 16 := by
    rw [and3_eq_mod b1 h1, shr4_eq_div b2 h2,
        shl4_or_eq _ _ (by omega) (by omega), and63_small _ (by omega)]
  have e3 : ((b2 &&& 0xf) <<< 2) &&& 0x3f = 4 * (b2 % 16) := by
    rw [and15_eq_mod b2 h2, shl2_small _ (by omega), and63_small _ (by omega)]
  show decode64 [encode6bit ((b1 >>> 2) &&& 0x3f),
        encode6bit ((((b1 &&& 0x3) <<< 4) ||| (b2 >>> 4)) &&& 0x3f),
        encode6bit (((b2 &&& 0xf) <<< 2) &&& 0x3f)] = _
  rw [e1, e2, e3, decode64,
      decode6bit_encode6bit _ (by omega), decode6bit_encode6bit _ (by omega),
      decode6bit_encode6bit _ (by omega)]
  simp only [List.cons.injEq]
  exact ⟨by omega, by omega, trivial⟩

theorem decode64_tail1 (b1 : Nat) (h1 : b1 < 256) :
    decode64 (encode64 [b1]) = [b1] := by
  have e1 : (b1 >>> 2) &&& 0x3f = b1 / 4 := by
    rw [shr2_eq_div b1 h1, and63_small _ (by omega)]
  have e2 : ((b1 &&& 0x3) <<< 4) &&& 0x3f = 16 * (b1 % 4) := by
    rw [and3_eq_mod b1 h1, shl4_small _ (by omega), and63_small _ (by omega)]
  show decode64 [encode6bit ((b1 >>> 2) &&& 0x3f),
        encode6bit (((b1 &&& 0x3) <<< 4) &&& 0x3f)] = _
  rw [e1, e2, decode64,
      decode6bit_encode6bit _ (by omega), decode6bit_encode6bit _ (by omega)]
  simp only [List.cons.injEq]
  exact ⟨by omega, trivial⟩

/-- Claim C1: for every byte sequence (all elements below 256, any length
including 0, 1, 2, 3 and non-multiples of 3), applying the inverse 6-bit
decoding to the output of `encode64` recovers the sequence exactly. -/
theorem decode64_encode64 (data : List Nat) (h : ∀ b ∈ data, b < 256) :
    decode64 (encode64 data) = data := by
  induction data using encode64.induct with
  | case1 b1 b2 b3 rest ih =>
      rw [encode64, decode64_group b1 b2 b3 (h b1 (by simp)) (h b2 (by simp))
            (h b3 (by simp)) (encode64 rest)]
      rw [ih (fun b hb => h b (by simp [hb]))]
  | case2 b1 b2 => exact decode64_tail2 b1 b2 (h b1 (by simp)) (h b2 (by simp))
  | case3 b1 => exact decode64_tail1 b1 (h b1 (by simp))
  | case4 => rfl

/-- Witness for claim C1 at a concrete byte sequence of length 7
(a non-multiple of 3, containing 0 and 255). -/
theorem decode64_encode64_witness :
    decode64 (encode64 [0, 255, 7, 200, 63, 64, 128]) = [0, 255, 7, 200, 63, 64, 128] :=
  decode64_encode64 [0, 255, 7, 200, 63, 64, 128] (by decide)

/-! ### Bit packing of the encoder (claim C3) -/

theorem encode3bytes_unmasked (b1 b2 b3 : Nat) (h1 : b1 < 256) (h2 : b2 < 256)
    (h3 : b3 < 256) :
    encode3bytes b1 b2 b3 =
      [encode6bit (b1 >>> 2),
       encode6bit (((b1 &&& 0x3) <<< 4) ||| (b2 >>> 4)),
       encode6bit (((b2 &&& 0xf) <<< 2) ||| (b3 >>> 6)),
       encode6bit (b3 &&& 0x3f)] := by
  have m1 : (b1 >>> 2) &&& 0x3f = b1 >>> 2 :=
    and63_small _ (by rw [shr2_eq_div b1 h1]; omega)
  have m2 : (((b1 &&& 0x3) <<< 4) ||| (b2 >>> 4)) &&& 0x3f =
      ((b1 &&& 0x3) <<< 4) ||| (b2 >>> 4) :=
    and63_small _ (by
      rw [and3_eq_mod b1 h1, shr4_eq_div b2 h2, shl4_or_eq _ _ (by omega) (by omega)]
      omega)
  have m3 : (((b2 &&& 0xf) <<< 2) ||| (b3 >>> 6)) &&& 0x3f =
      ((b2 &&& 0xf) <<< 2) ||| (b3 >>> 6) :=
    and63_small _ (by
      rw [and15_eq_mod b2 h2, shr6_eq_div b3 h3, shl2_or_eq _ _ (by omega) (by omega)]
      omega)
  have m4 : (b3 &&& 0x3f) &&& 0x3f = b3 &&& 0x3f :=
    and63_small _ (by rw [and63_eq_mod b3 h3]; omega)
  show [encode6bit ((b1 >>> 2) &&& 0x3f),
        encode6bit ((((b1 &&& 0x3) <<< 4) ||| (b2 >>> 4)) &&& 0x3f),
        encode6bit ((((b2 &&& 0xf) <<< 2) ||| (b3 >>> 6)) &&& 0x3f),
        encode6bit ((b3 &&& 0x3f) &&& 0x3f)] = _
  rw [m1, m2, m3, m4]

/-- Claim C3: each full 3-byte group is encoded as the four 6-bit values
`b1 >> 2`, `((b1 & 3) << 4) | (b2 >> 4)`, `((b2 & 15) << 2) | (b3 >> 6)`,
`b3 & 63` mapped through the alphabet; a 2-byte tail yields exactly the
three stated characters and a 1-byte tail exactly the two stated ones;
`[0,0,0]` encodes to four zero digits and `[255,255,255]` to four
underscores. -/
theorem encode64_bit_packing :
    (∀ b1 b2 b3 rest, b1 < 256 → b2 < 256 → b3 < 256 →
      encode64 (b1 :: b2 :: b3 :: rest) =
        encode6bit (b1 >>> 2) ::
        encode6bit (((b1 &&& 0x3) <<< 4) ||| (b2 >>> 4)) ::
        encode6bit (((b2 &&& 0xf) <<< 2) ||| (b3 >>> 6)) ::
        encode6bit (b3 &&& 0x3f) :: encode64 rest) ∧
    (∀ b1 b2, b1 < 256 → b2 < 256 →
      encode64 [b1, b2] =
        [encode6bit (b1 >>> 2),
         encode6bit (((b1 &&& 0x3) <<< 4) ||| (b2 >>> 4)),
         encode6bit ((b2 &&& 0xf) <<< 2)]) ∧
    (∀ b1, b1 < 256 →
      encode64 [b1] = [encode6bit (b1 >>> 2), encode6bit ((b1 &&& 0x3) <<< 4)]) ∧
    encode64 [0, 0, 0] = ['0', '0', '0', '0'] ∧
    encode64 [255, 255, 255] = ['_', '_', '_', '_'] := by
  refine ⟨?_, ?_, ?_, by decide, by decide⟩
  · intro b1 b2 b3 rest h1 h2 h3
    rw [encode64, encode3bytes_unmasked b1 b2 b3 h1 h2 h3]
    rfl
  · intro b1 b2 h1 h2
    have m1 : (b1 >>> 2) &&& 0x3f = b1 >>> 2 :=
      and63_small _ (by rw [shr2_eq_div b1 h1]; omega)
    have m2 : (((b1 &&& 0x3) <<< 4) ||| (b2 >>> 4)) &&& 0x3f =
        ((b1 &&& 0x3) <<< 4) ||| (b2 >>> 4) :=
      and63_small _ (by
        rw [and3_eq_mod b1 h1, shr4_eq_div b2 h2, shl4_or_eq _ _ (by omega) (by omega)]
        omega)
    have m3 : ((b2 &&& 0xf) <<< 2) &&& 0x3f = (b2 &&& 0xf) <<< 2 :=
      and63_small _ (by rw [and15_eq_mod b2 h2, shl2_small _ (by omega)]; omega)
    show [encode6bit ((b1 >>> 2) &&& 0x3f),
          encode6bit ((((b1 &&& 0x3) <<< 4) ||| (b2 >>> 4)) &&& 0x3f),
          encode6bit (((b2 &&& 0xf) <<< 2) &&& 0x3f)] = _
    rw [m1, m2, m3]
  · intro b1 h1
    have m1 : (b1 >>> 2) &&& 0x3f = b1 >>> 2 :=
      and63_small _ (by rw [shr2_eq_div b1 h1]; omega)
    have m2 : ((b1 &&& 0x3) <<< 4) &&& 0x3f = (b1 &&& 0x3) <<< 4 :=
      and63_small _ (by rw [and3_eq_mod b1 h1, shl4_small _ (by omega)]; omega)
    show [encode6bit ((b1 >>> 2) &&& 0x3f),
          encode6bit (((b1 &&& 0x3) <<< 4) &&& 0x3f)] = _
    rw [m1, m2]

/-- Witness for claim C3: the full-group equation instantiated at the
concrete bytes 250, 251, 252 with an empty remainder. -/
theorem encode64_bit_packing_witness :
    encode64 [250, 251, 252] =
      encode6bit (250 >>> 2) ::
      encode6bit (((250 &&& 0x3) <<< 4) ||| (251 >>> 4)) ::
      encode6bit (((251 &&& 0xf) <<< 2) ||| (252 >>> 6)) ::
      encode6bit (252 &&& 0x3f) :: encode64 [] :=
  encode64_bit_packing.1 250 251 252 [] (by omega) (by omega) (by omega)

/-! ### Output length of the encoder (claim C4) -/

theorem encode64_length (data : List Nat) :
    (encode64 data).length = (4 * data.length + 2) / 3 := by
  induction data using encode64.induct with
  | case1 b1 b2 b3 rest ih =>
      rw [encode64]
      rw [List.length_append]
      have h4 : (encode3bytes b1 b2 b3).length = 4 := rfl
      rw [h4, ih]
      simp only [List.length_cons]
      omega
  | case2 b1 b2 => simp [encode64]
  | case3 b1 => simp [encode64]
  | case4 => rfl

/-- Claim C4: the encoder output for an input of length `n` has exactly
`ceil(n * 4 / 3)` characters (equivalently `floor(n/3)*4` plus 0, 2 or 3
tail characters for `n mod 3` = 0, 1, 2), and the empty byte input
produces the empty output rather than an error. -/
theorem encode64_length_spec :
    (∀ data : List Nat, (encode64 data).length = (4 * data.length + 2) / 3) ∧
    (∀ data : List Nat,
      (encode64 data).length =
        data.length / 3 * 4 +
          (if data.length % 3 = 0 then 0 else if data.length % 3 = 1 then 2 else 3)) ∧
    encode64 [] = [] := by
  refine ⟨encode64_length, ?_, rfl⟩
  intro data
  rw [encode64_length data]
  rcases (show data.length % 3 = 0 ∨ data.length % 3 = 1 ∨ data.length % 3 = 2 by omega)
    with h | h | h <;> simp [h] <;> omega

/-! ### Alphabet membership of the encoder output (claim C5) -/

/-- Decides membership in the URL-safe class `[0-9A-Za-z\-_]`. -/
def isUrlSafeChar (c : Char) : Bool :=
  decide ((48 ≤ c.toNat ∧ c.toNat ≤ 57) ∨ (65 ≤ c.toNat ∧ c.toNat ≤ 90) ∨
    (97 ≤ c.toNat ∧ c.toNat ≤ 122) ∨ c.toNat = 45 ∨ c.toNat = 95)

theorem encode6bit_masked_safe (v : Nat) :
    isUrlSafeChar (encode6bit (v &&& 0x3f)) = true ∧ encode6bit (v &&& 0x3f) ≠ '?' := by
  have hlt : v &&& 0x3f < 64 := by
    have h := Nat.and_le_right (n := v) (m := 0x3f)
    omega
  have h64 : ∀ w, w < 64 → isUrlSafeChar (encode6bit w) = true ∧ encode6bit w ≠ '?' := by
    decide
  exact h64 _ hlt

/-- Claim C5: every character produced by `encode64` lies in the class
`[0-9A-Za-z\-_]`; in particular the defensive fallback branch of
`encode6bit` (the question-mark character) is never reached, because every
argument passed from `encode64` is masked with `&&& 0x3f`. -/
theorem encode64_alphabet (data : List Nat) :
    ∀ c ∈ encode64 data, isUrlSafeChar c = true ∧ c ≠ '?' := by
  induction data using encode64.induct with
  | case1 b1 b2 b3 rest ih =>
      intro c hc
      rw [encode64] at hc
      rcases List.mem_append.mp hc with hl | hr
      · have hl' : c = encode6bit ((b1 >>> 2) &&& 0x3f) ∨
            c = encode6bit ((((b1 &&& 0x3) <<< 4) ||| (b2 >>> 4)) &&& 0x3f) ∨
            c = encode6bit ((((b2 &&& 0xf) <<< 2) ||| (b3 >>> 6)) &&& 0x3f) ∨
            c = encode6bit ((b3 &&& 0x3f) &&& 0x3f) := by
          simpa [encode3bytes] using hl
        rcases hl' with h | h | h | h <;>
          (subst h; exact encode6bit_masked_safe _)
      · exact ih c hr
  | case2 b1 b2 =>
      intro c hc
      have hc' : c = encode6bit ((b1 >>> 2) &&& 0x3f) ∨
          c = encode6bit ((((b1 &&& 0x3) <<< 4) ||| (b2 >>> 4)) &&& 0x3f) ∨
          c = encode6bit (((b2 &&& 0xf) <<< 2) &&& 0x3f) := by
        simpa [encode64] using hc
      rcases hc' with h | h | h <;> (subst h; exact encode6bit_masked_safe _)
  | case3 b1 =>
      intro c hc
      have hc' : c = encode6bit ((b1 >>> 2) &&& 0x3f) ∨
          c = encode6bit (((b1 &&& 0x3) <<< 4) &&& 0x3f) := by
        simpa [encode64] using hc
      rcases hc' with h | h <;> (subst h; exact encode6bit_masked_safe _)
  | case4 =>
      intro c hc
      simp [encode64] at hc

/-- Witness for claim C5 at the byte sequence `[0]` and its first output
character. -/
theorem encode64_alphabet_witness :
    isUrlSafeChar '0' = true ∧ '0' ≠ '?' :=
  encode64_alphabet [0] '0' (by decide)

/-! ### The Text Canonicalizer of `getPlantUMLUrl`

The source line is
`code.replace(/三backticks[a-z]*\n?/gi, '').replace(/三backticks\n?/gi, '').trim()`
(backticks spelled out). A JavaScript global replace scans left to right,
at each index attempting a match; on a match it emits the (empty)
replacement and resumes after the match, otherwise it emits the character
and advances one position. Neither pattern is anchored to line starts. -/

/-- The backtick character (code point 96). -/
def backtick : Char := Char.ofNat 96

/-- A character matched by `[a-z]` under the case-insensitive flag. -/
def isTagChar (c : Char) : Bool :=
  decide ((97 ≤ c.toNat ∧ c.toNat ≤ 122) ∨ (65 ≤ c.toNat ∧ c.toNat ≤ 90))

/-- Whether a list starts with a backtick. -/
def headIsBt : List Char → Bool
  | c :: _ => decide (c = backtick)
  | [] => false

/-- First replace: pattern "three backticks, then `[a-z]*`, then `\n?`",
global, case-insensitive. The scanner state `tag = true` means we are
consuming the greedy `[a-z]*\n?` part of a match already begun; on the
first character that fits neither, scanning resumes in normal mode at
that same character, which the second and fourth branches inline. -/
def replaceFence1 : Bool → List Char → List Char
  | _, [] => []
  | tag, c1 :: c2 :: c3 :: rest =>
      if tag ∧ isTagChar c1 then replaceFence1 true (c2 :: c3 :: rest)
      else if tag ∧ c1 = '\n' then replaceFence1 false (c2 :: c3 :: rest)
      else if c1 = backtick ∧ c2 = backtick ∧ c3 = backtick then replaceFence1 true rest
      else c1 :: replaceFence1 false (c2 :: c3 :: rest)
  | tag, c1 :: rest =>
      if tag ∧ isTagChar c1 then replaceFence1 true rest
      else if tag ∧ c1 = '\n' then replaceFence1 false rest
      else c1 :: replaceFence1 false rest

/-- Second replace: pattern "three backticks then `\n?`", global. -/
def replaceFence2 : List Char → List Char
  | c1 :: c2 :: c3 :: c4 :: rest =>
      if c1 = backtick ∧ c2 = backtick ∧ c3 = backtick then
        if c4 = '\n' then replaceFence2 rest else replaceFence2 (c4 :: rest)
      else c1 :: replaceFence2 (c2 :: c3 :: c4 :: rest)
  | [c1, c2, c3] =>
      if c1 = backtick ∧ c2 = backtick ∧ c3 = backtick then [] else [c1, c2, c3]
  | l => l

/-- The character class removed by JavaScript `String.prototype.trim`
(ECMAScript WhiteSpace and LineTerminator code points). -/
def isJsWs (c : Char) : Bool :=
  decide (c.toNat = 32 ∨ c.toNat = 9 ∨ c.toNat = 10 ∨ c.toNat = 13 ∨ c.toNat = 11 ∨
    c.toNat = 12 ∨ c.toNat = 160 ∨ c.toNat = 0x1680 ∨
    (0x2000 ≤ c.toNat ∧ c.toNat ≤ 0x200A) ∨ c.toNat = 0x2028 ∨ c.toNat = 0x2029 ∨
    c.toNat = 0x202F ∨ c.toNat = 0x205F ∨ c.toNat = 0x3000 ∨ c.toNat = 0xFEFF)

/-- JavaScript `String.prototype.trim`: drop the whitespace run at each end. -/
def trimChars (l : List Char) : List Char :=
  ((l.dropWhile isJsWs).reverse.dropWhile isJsWs).reverse

/-- The Text Canonicalizer: the two fence-removing replaces followed by
trim, exactly as composed on line 52 of src/App.tsx. -/
def canonicalize (l : List Char) : List Char :=
  trimChars (replaceFence2 (replaceFence1 false l))

/-- Whether three consecutive backticks occur anywhere in the list. -/
def hasTriple : List Char → Bool
  | c :: rest => (decide (c = backtick) && headIsBt rest && headIsBt rest.tail) || hasTriple rest
  | [] => false

theorem hasTriple_tail (c : Char) (l : List Char) (h : hasTriple (c :: l) = false) :
    hasTriple l = false := by
  rw [hasTriple] at h
  exact (Bool.or_eq_false_iff.mp h).2

theorem replaceFence1_eq_self (l : List Char) (h : hasTriple l = false) :
    replaceFence1 false l = l := by
  induction l with
  | nil => rfl
  | cons c rest ih =>
      rcases rest with _ | ⟨c2, _ | ⟨c3, rest'⟩⟩
      · simp [replaceFence1]
      · simp [replaceFence1]
      · have hnt : ¬(c = backtick ∧ c2 = backtick ∧ c3 = backtick) := by
          rw [hasTriple] at h
          have h1 := (Bool.or_eq_false_iff.mp h).1
          simp only [headIsBt, List.tail_cons, Bool.and_eq_false_iff,
            decide_eq_false_iff_not] at h1
          rintro ⟨e1, e2, e3⟩
          rcases h1 with (h1 | h1) | h1 <;> simp_all
        have ht : hasTriple (c2 :: c3 :: rest') = false := hasTriple_tail c _ h
        simp only [replaceFence1]
        simp only [Bool.false_eq_true, false_and, if_false, if_neg hnt]
        rw [ih ht]

theorem replaceFence2_eq_self (l : List Char) (h : hasTriple l = false) :
    replaceFence2 l = l := by
  induction l with
  | nil => rfl
  | cons c rest ih =>
      rcases rest with _ | ⟨c2, _ | ⟨c3, _ | ⟨c4, rest'⟩⟩⟩
      · rfl
      · rfl
      · have hnt : ¬(c = backtick ∧ c2 = backtick ∧ c3 = backtick) := by
          rw [hasTriple] at h
          have h1 := (Bool.or_eq_false_iff.mp h).1
          simp only [headIsBt, List.tail_cons, Bool.and_eq_false_iff,
            decide_eq_false_iff_not] at h1
          rintro ⟨e1, e2, e3⟩
          rcases h1 with (h1 | h1) | h1 <;> simp_all
        simp [replaceFence2, hnt]
      · have hnt : ¬(c = backtick ∧ c2 = backtick ∧ c3 = backtick) := by
          rw [hasTriple] at h
          have h1 := (Bool.or_eq_false_iff.mp h).1
          simp only [headIsBt, List.tail_cons, Bool.and_eq_false_iff,
            decide_eq_false_iff_not] at h1
          rintro ⟨e1, e2, e3⟩
          rcases h1 with (h1 | h1) | h1 <;> simp_all
        have ht : hasTriple (c2 :: c3 :: c4 :: rest') = false := hasTriple_tail c _ h
        rw [replaceFence2, if_neg hnt, ih ht]

/-- Counterexample to claim C6: in the input `a` + three backticks + `b`
the (only) triple-backtick sequence occurs mid-string, away from any line
boundary, yet the Canonicalizer does not merely trim — the unanchored
regex removes the fence and its `b` language tag, leaving just `a`. -/
theorem canonicalize_midstring_counterexample :
    canonicalize (String.data ("a```b")) ≠ trimChars (String.data ("a```b")) ∧
    canonicalize (String.data ("a```b")) = String.data ("a") := by
  constructor
  · decide
  · decide

/-- Claim C6 as amended: the fence patterns are not anchored to line
boundaries, so only inputs containing no triple-backtick sequence at all
are left unmodified apart from trimming; a fence is matched and removed
wherever it occurs, including mid-string. -/
theorem canonicalize_no_fence (l : List Char) (h : hasTriple l = false) :
    canonicalize l = trimChars l := by
  rw [canonicalize, replaceFence1_eq_self l h, replaceFence2_eq_self l h]

/-- Witness for the amended claim C6 at a fence-free input with
surrounding whitespace. -/
theorem canonicalize_no_fence_witness :
    canonicalize (String.data (" @startsalt\n@endsalt ")) =
      trimChars (String.data (" @startsalt\n@endsalt ")) :=
  canonicalize_no_fence (String.data (" @startsalt\n@endsalt ")) (by decide)

/-! ### Idempotence of the Canonicalizer (claim C7)

The second replace leaves no triple backtick in its output (a kept
backtick is never directly followed by two more — the scanner would have
matched there), the replaces are the identity on triple-free text, and
trimming trimmed text changes nothing. -/

theorem replaceFence2_cons_ne (c : Char) (l : List Char) (hc : ¬c = backtick) :
    replaceFence2 (c :: l) = c :: replaceFence2 l := by
  rcases l with _ | ⟨d, _ | ⟨e, _ | ⟨f, t⟩⟩⟩
  · rfl
  · rfl
  · rw [replaceFence2, if_neg (by tauto)]
    rfl
  · rw [replaceFence2, if_neg (by tauto)]

theorem replaceFence2_cons_cons_ne2 (x y : Char) (l : List Char) (hy : ¬y = backtick) :
    replaceFence2 (x :: y :: l) = x :: replaceFence2 (y :: l) := by
  rcases l with _ | ⟨z, _ | ⟨w, t⟩⟩
  · rfl
  · rw [replaceFence2, if_neg (by tauto)]
    rfl
  · rw [replaceFence2, if_neg (by tauto)]

theorem hasTriple_replaceFence2 (l : List Char) :
    hasTriple (replaceFence2 l) = false := by
  induction l using replaceFence2.induct with
  | case1 c1 c2 c3 rest h ih =>
      rw [replaceFence2, if_pos h, if_pos rfl]
      exact ih
  | case2 c1 c2 c3 c4 rest h hnl ih =>
      rw [replaceFence2, if_pos h, if_neg hnl]
      exact ih
  | case3 c1 c2 c3 c4 rest h ih =>
      rw [replaceFence2, if_neg h]
      by_cases h1 : c1 = backtick
      · by_cases h2 : c2 = backtick
        · have h3 : ¬c3 = backtick := by tauto
          rw [replaceFence2_cons_cons_ne2 c2 c3 _ h3] at ih ⊢
          rw [replaceFence2_cons_ne c3 _ h3] at ih ⊢
          rw [hasTriple]
          simp only [headIsBt, List.tail_cons, ih, Bool.or_false]
          simp [h3]
        · rw [replaceFence2_cons_ne c2 _ h2] at ih ⊢
          rw [hasTriple]
          simp only [headIsBt, ih, Bool.or_false]
          simp [h2]
      · rw [hasTriple]
        simp only [ih, Bool.or_false]
        simp [h1]
  | case4 c1 c2 c3 h =>
      rw [replaceFence2, if_pos h]
      rfl
  | case5 c1 c2 c3 h =>
      rw [replaceFence2, if_neg h]
      simp only [hasTriple, headIsBt, List.tail_cons, List.tail_nil, Bool.or_false,
        Bool.and_eq_false_iff, decide_eq_false_iff_not]
      by_cases h1 : c1 = backtick
      · by_cases h2 : c2 = backtick
        · have h3 : ¬c3 = backtick := by tauto
          simp [h1, h2, h3]
        · simp [h1, h2]
      · simp [h1]
  | case6 l h4 h3 =>
      rcases l with _ | ⟨a, _ | ⟨b, _ | ⟨c, t⟩⟩⟩
      · rfl
      · show hasTriple [a] = false
        simp [hasTriple, headIsBt]
      · show hasTriple [a, b] = false
        simp [hasTriple, headIsBt]
      · rcases t with _ | ⟨d, t'⟩
        · exact absurd rfl (h3 a b c)
        · exact absurd rfl (h4 a b c d t')

theorem triple_infix_of_hasTriple (l : List Char) (h : hasTriple l = true) :
    [backtick, backtick, backtick] <:+: l := by
  induction l with
  | nil => simp [hasTriple] at h
  | cons c rest ih =>
      rw [hasTriple, Bool.or_eq_true] at h
      rcases h with h | h
      · simp only [Bool.and_eq_true, decide_eq_true_eq] at h
        obtain ⟨⟨hc, hrest⟩, htail⟩ := h
        rcases rest with _ | ⟨d, rest2⟩
        · simp [headIsBt] at hrest
        · rcases rest2 with _ | ⟨e, rest3⟩
          · simp [headIsBt] at htail
          · simp only [headIsBt, decide_eq_true_eq, List.tail_cons] at hrest htail
            subst hc; subst hrest; subst htail
            exact ⟨[], rest3, by simp⟩
      · exact List.infix_cons_iff.mpr (Or.inr (ih h))

theorem hasTriple_of_contains_triple (l : List Char)
    (h : [backtick, backtick, backtick] <:+: l) : hasTriple l = true := by
  obtain ⟨s, t, hst⟩ := h
  induction s generalizing l with
  | nil =>
      subst hst
      simp [hasTriple, headIsBt]
  | cons a s' ih =>
      subst hst
      show hasTriple (a :: (s' ++ [backtick, backtick, backtick] ++ t)) = true
      rw [hasTriple, Bool.or_eq_true]
      exact Or.inr (ih _ rfl)

theorem hasTriple_false_of_within (l' l : List Char) (hinf : l' <:+: l)
    (h : hasTriple l = false) : hasTriple l' = false := by
  by_contra hne
  have h' : hasTriple l' = true := by
    cases hv : hasTriple l'
    · exact absurd hv hne
    · rfl
  have := hasTriple_of_contains_triple l
    ((triple_infix_of_hasTriple l' h').trans hinf)
  simp [this] at h

theorem trimChars_eq_rdropWhile (l : List Char) :
    trimChars l = List.rdropWhile isJsWs (List.dropWhile isJsWs l) := rfl

theorem trimChars_within (l : List Char) : trimChars l <:+: l := by
  rw [trimChars_eq_rdropWhile]
  exact ((List.rdropWhile_prefix isJsWs _).isInfix).trans
    ((List.dropWhile_suffix isJsWs).isInfix)

theorem dropWhile_rdropWhile_dropWhile (l : List Char) :
    List.dropWhile isJsWs (List.rdropWhile isJsWs (List.dropWhile isJsWs l)) =
      List.rdropWhile isJsWs (List.dropWhile isJsWs l) := by
  cases hz : List.rdropWhile isJsWs (List.dropWhile isJsWs l) with
  | nil => rfl
  | cons x z' =>
      obtain ⟨t, ht⟩ := List.rdropWhile_prefix isJsWs (List.dropWhile isJsWs l)
      rw [hz] at ht
      have hidem := List.dropWhile_idempotent (l := l) (p := isJsWs)
      rw [← ht] at hidem
      have hpx : isJsWs x = false := by
        by_contra hpx
        have hpx' : isJsWs x = true := by
          cases hv : isJsWs x
          · exact absurd hv hpx
          · rfl
        rw [List.cons_append, List.dropWhile_cons_of_pos hpx'] at hidem
        have hlen := congrArg List.length hidem
        have hle := (List.dropWhile_suffix (l := z' ++ t) isJsWs).length_le
        simp only [List.length_cons, List.length_append] at hlen hle
        omega
      rw [List.dropWhile_cons_of_neg (by simp [hpx])]

theorem trimChars_idem (l : List Char) : trimChars (trimChars l) = trimChars l := by
  rw [trimChars_eq_rdropWhile, trimChars_eq_rdropWhile,
      dropWhile_rdropWhile_dropWhile, List.rdropWhile_idempotent]

/-- Claim C7: the Canonicalizer (the two fence-removing replaces followed
by trim) is idempotent — applying it twice gives the same result as
applying it once. -/
theorem canonicalize_idem (l : List Char) :
    canonicalize (canonicalize l) = canonicalize l := by
  have hX : hasTriple (replaceFence2 (replaceFence1 false l)) = false :=
    hasTriple_replaceFence2 (replaceFence1 false l)
  have hT : hasTriple (canonicalize l) = false :=
    hasTriple_false_of_within _ _
      (trimChars_within (replaceFence2 (replaceFence1 false l))) hX
  show trimChars (replaceFence2 (replaceFence1 false (canonicalize l))) = canonicalize l
  rw [replaceFence1_eq_self _ hT, replaceFence2_eq_self _ hT]
  exact trimChars_idem (replaceFence2 (replaceFence1 false l))

/-! ### The compressor and the URL pipeline (claims C2, C8, C9, C10)

src/App.tsx calls `pako.deflate(data, level 9)` — the external pako
library, whose code is not part of this repository. Its documented API:
`pako.deflate` emits a zlib stream (RFC 1950) — a 2-byte header, a
DEFLATE body and a big-endian Adler-32 trailer — while `pako.deflateRaw`
emits the bare DEFLATE body. The DEFLATE body itself is modelled as a
single stored (uncompressed, BFINAL=1, BTYPE=00) block per RFC 1951,
which is a valid DEFLATE encoding for inputs shorter than 65536 bytes;
the wrapper framing, which claim C2 is about, is modelled exactly. -/

/-- UTF-8 bytes of one Unicode scalar value, as `TextEncoder` emits them. -/
def utf8EncodeChar (c : Char) : List Nat :=
  let n := c.toNat
  if n < 0x80 then [n]
  else if n < 0x800 then [0xC0 ||| (n >>> 6), 0x80 ||| (n &&& 0x3F)]
  else if n < 0x10000 then
    [0xE0 ||| (n >>> 12), 0x80 ||| ((n >>> 6) &&& 0x3F), 0x80 ||| (n &&& 0x3F)]
  else
    [0xF0 ||| (n >>> 18), 0x80 ||| ((n >>> 12) &&& 0x3F),
     0x80 ||| ((n >>> 6) &&& 0x3F), 0x80 ||| (n &&& 0x3F)]

/-- UTF-8 encoding, `new TextEncoder().encode(...)`, on line 54 of src/App.tsx. -/
def utf8Encode : List Char → List Nat
  | c :: cs => utf8EncodeChar c ++ utf8Encode cs
  | [] => []

/-- The UTF-8 bytes of a string. -/
def strBytes (s : String) : List Nat := utf8Encode s.data

/-- Modelled from the spec: the four big-endian Adler-32 checksum bytes
(RFC 1950) that a zlib stream appends. -/
def adler32 (data : List Nat) : List Nat :=
  let p := data.foldl
    (fun (q : Nat × Nat) b => ((q.1 + b) % 65521, (q.2 + (q.1 + b) % 65521) % 65521))
    (1, 0)
  [p.2 / 256, p.2 % 256, p.1 / 256, p.1 % 256]

/-- Modelled from the spec: a raw DEFLATE body for `data`, as a single
stored block — BFINAL=1/BTYPE=00 byte, the 16-bit length, its one's
complement, then the literal bytes (RFC 1951 §3.2.4). -/
def storedDeflate (data : List Nat) : List Nat :=
  1 :: (data.length % 256) :: (data.length / 256 % 256) ::
    ((65535 - data.length % 65536) % 256) :: ((65535 - data.length % 65536) / 256 % 256) ::
    data

/-- Modelled from the spec and pako's documented API: `pako.deflate` with
level 9 and no `raw` option — the call on line 55 of src/App.tsx — wraps
the DEFLATE body in the zlib envelope: header bytes 0x78 0xDA and the
Adler-32 trailer of the uncompressed input. -/
def pako_deflate (data : List Nat) : List Nat :=
  120 :: 218 :: (storedDeflate data ++ adler32 data)

/-- Modelled from the spec and pako's documented API: `pako.deflateRaw`
(not what the source calls) emits the bare DEFLATE body. -/
def pako_deflateRaw (data : List Nat) : List Nat := storedDeflate data

/-- Modelled from the spec: a raw-DEFLATE decompressor for the
stored-block streams above; `none` when the input is not such a stream. -/
def inflateRaw : List Nat → Option (List Nat)
  | 1 :: l0 :: l1 :: n0 :: n1 :: rest =>
      if l0 + 256 * l1 + (n0 + 256 * n1) = 65535 ∧ rest.length = l0 + 256 * l1 then
        some rest
      else none
  | _ => none

/-- Modelled from the spec: a zlib decompressor — strips the 2-byte
header, raw-inflates the body, and checks the Adler-32 trailer. -/
def inflateZlib (s : List Nat) : Option (List Nat) :=
  match s with
  | 120 :: 218 :: rest =>
      match inflateRaw (rest.take (rest.length - 4)) with
      | some d => if rest.drop (rest.length - 4) = adler32 d then some d else none
      | none => none
  | _ => none

/-- Claim C2 fails on the code: the compressor stage calls `pako.deflate`,
whose output is zlib-wrapped, not a raw DEFLATE stream. A raw-DEFLATE
decompressor rejects its output for every input (the stream starts with
the zlib header 0x78 0xDA, never a DEFLATE block header), while the zlib
decompressor recovers the input; `pako.deflateRaw` is what a raw-DEFLATE
decompressor inverts. Shown in general and at the concrete input `A`. -/
theorem compressor_not_raw_deflate :
    (∀ data : List Nat, inflateRaw (pako_deflate data) = none) ∧
    pako_deflate (strBytes ("A")) = [120, 218, 1, 1, 0, 254, 255, 65, 0, 66, 0, 66] ∧
    inflateZlib (pako_deflate (strBytes ("A"))) = some (strBytes ("A")) ∧
    inflateRaw (pako_deflateRaw (strBytes ("A"))) = some (strBytes ("A")) := by
  refine ⟨fun data => rfl, by decide, by decide, by decide⟩

/-- The pipeline of `getPlantUMLUrl` (src/App.tsx lines 49–62), with the
compressor as a parameter that may fail: `none` models a thrown
exception, and the `try`/`catch` that returns the empty string is the
`Option` branch. The `if (!code) return ""` guard tests the raw,
pre-canonicalization string. -/
def getPlantUMLUrlWith (compress : List Nat → Option (List Nat)) (code : String) : String :=
  if code = "" then ("")
  else
    match compress (utf8Encode (canonicalize code.data)) with
    | some compressed =>
        ("https://plantuml.com/plantuml/svg/~1") ++ String.mk (encode64 compressed)
    | none => ""

/-- Function `getPlantUMLUrl` of src/App.tsx with the modelled pako compressor. -/
def getPlantUMLUrl (code : String) : String :=
  getPlantUMLUrlWith (fun d => some (pako_deflate d)) code

/-- Claim C8: whatever the input, if the compressor stage signals failure
(models any exception inside the `try` block), `getPlantUMLUrl` returns
the empty string instead of propagating the failure to the caller. -/
theorem getPlantUMLUrl_failure_contained (compress : List Nat → Option (List Nat))
    (code : String) (h : compress (utf8Encode (canonicalize code.data)) = none) :
    getPlantUMLUrlWith compress code = "" := by
  by_cases hc : code = ""
  · unfold getPlantUMLUrlWith
    rw [if_pos hc]
  · unfold getPlantUMLUrlWith
    rw [if_neg hc, h]

/-- Witness for claim C8: an always-failing compressor on a concrete
non-empty input still yields the empty string. -/
theorem getPlantUMLUrl_failure_contained_witness :
    getPlantUMLUrlWith (fun _ => (none : Option (List Nat))) ("@startsalt") = "" :=
  getPlantUMLUrl_failure_contained (fun _ => (none : Option (List Nat)))
    ("@startsalt") rfl

/-- Claim C9: the empty (falsy) input returns the empty string rather
than a malformed URL, and every non-empty input returns exactly the
fixed base URL, the literal scheme tag `~1`, and the encoded compressed
payload. -/
theorem getPlantUMLUrl_shape (code : String) :
    (code = "" → getPlantUMLUrl code = "") ∧
    (code ≠ "" →
      getPlantUMLUrl code =
        ("https://plantuml.com/plantuml/svg/~1") ++
          String.mk (encode64 (pako_deflate (utf8Encode (canonicalize code.data))))) := by
  constructor
  · intro h
    unfold getPlantUMLUrl getPlantUMLUrlWith
    rw [if_pos h]
  · intro h
    unfold getPlantUMLUrl getPlantUMLUrlWith
    rw [if_neg h]

/-- Witness for claim C9 at the empty input and at a concrete diagram. -/
theorem getPlantUMLUrl_shape_witness :
    getPlantUMLUrl ("") = "" ∧
    getPlantUMLUrl ("@startsalt") =
      ("https://plantuml.com/plantuml/svg/~1") ++
        String.mk (encode64 (pako_deflate (utf8Encode (canonicalize (("@startsalt").data))))) :=
  ⟨(getPlantUMLUrl_shape ("")).1 rfl, (getPlantUMLUrl_shape ("@startsalt")).2 (by decide)⟩

/-- Claim C10: an input that is non-empty but canonicalizes to nothing
(whitespace-only, or fence markers only) is not caught by the emptiness
guard — that guard reads the raw pre-canonicalization text — so the
function returns a full, non-empty URL whose payload encodes the
compression of zero bytes. -/
theorem getPlantUMLUrl_vacuous_payload (code : String) (hne : code ≠ "")
    (hcanon : canonicalize code.data = []) :
    getPlantUMLUrl code =
      ("https://plantuml.com/plantuml/svg/~1") ++
        String.mk (encode64 (pako_deflate [])) ∧
    getPlantUMLUrl code ≠ "" := by
  have heq : getPlantUMLUrl code =
      ("https://plantuml.com/plantuml/svg/~1") ++
        String.mk (encode64 (pako_deflate [])) := by
    unfold getPlantUMLUrl getPlantUMLUrlWith
    rw [if_neg hne, hcanon]
    rfl
  refine ⟨heq, ?_⟩
  rw [heq]
  decide

/-- Witness for claim C10 at an input consisting only of two fences. -/
theorem getPlantUMLUrl_vacuous_payload_witness :
    getPlantUMLUrl ("```\n```") =
      ("https://plantuml.com/plantuml/svg/~1") ++
        String.mk (encode64 (pako_deflate [])) ∧
    getPlantUMLUrl ("```\n```") ≠ "" :=
  getPlantUMLUrl_vacuous_payload ("```\n```") (by decide) (by decide)

end Image2Salt
